import Mathlib

/-!
# Verification of `find_top_drawdown_intervals` (src/Quotes_Max_Drawdown.py)

A shallow embedding of the drawdown-interval search of `Quotes_Max_Drawdown.py`.

The script's core, `find_top_drawdown_intervals`, works over a pandas frame
whose index is a strictly increasing sequence of unique trading dates and whose
`Close` column holds the prices.  Since the dates are unique and strictly
increasing, they are in order-preserving bijection with the row positions
`0 .. n-1`; the embedding therefore represents the series as a `List ℚ` of
closing prices and uses the row position itself as the date
(`data.index[i] = i`).  Under this identification the slice
`set(data.index[start_idx:end_idx + 1])` (with `end_idx < n`) is the interval
`Finset.Icc start_idx end_idx`.

Prices are embedded as rationals (the script uses floats; the algorithm only
divides, subtracts, multiplies and compares, all of which are exact here).

The module-level configuration globals `MIN_DRAWDOWN_RATE`, `MIN_DAYS`,
`MAX_DAYS`, `TOP_N` are gathered into a `Config` record so that the claims
quantifying over configurations can be stated.
-/

namespace MarketResearch

/-- The script's module-level configuration globals (lines 11-14). -/
structure Config where
  MIN_DRAWDOWN_RATE : ℚ
  MIN_DAYS : ℕ
  MAX_DAYS : ℕ
  TOP_N : ℕ

/-- The dict the scan appends at lines 97-105: start/end date, window length,
drawdown rate, both prices, and the set of dates covered by the interval. -/
structure DrawdownInterval where
  start_date : ℕ
  end_date : ℕ
  days : ℕ
  drawdown_rate : ℚ
  start_price : ℚ
  end_price : ℚ
  dates : Finset ℕ
deriving DecidableEq

/-- The record built at lines 91-105 for a given `start_idx` and `days`
(`end_idx = start_idx + days`):
`start_price = data['Close'].iloc[start_idx]`,
`end_price = data['Close'].iloc[end_idx]`,
`drawdown_rate = (end_price / start_price - 1) * 100`,
`dates = set(data.index[start_idx:end_idx + 1]) = Finset.Icc start_idx end_idx`. -/
def candidate (data : List ℚ) (start_idx days : ℕ) : DrawdownInterval :=
  { start_date := start_idx
    end_date := start_idx + days
    days := days
    drawdown_rate := (data.getD (start_idx + days) 0 / data.getD start_idx 0 - 1) * 100
    start_price := data.getD start_idx 0
    end_price := data.getD (start_idx + days) 0
    dates := Finset.Icc start_idx (start_idx + days) }

/-- The scan phase (lines 78-105), parameterised by the `used_dates` set that
the Python code consults at line 87.  In the script `used_dates` is still
empty while this loop runs (it is only updated at line 126, inside the
selection loop, which runs strictly after the scan), but the check is part of
the source and is embedded as written.

* outer loop: `for start_idx in range(len(data))` is `List.range data.length`;
* inner loop: `for days in range(MIN_DAYS, MAX_DAYS + 1)` is
  `List.range' MIN_DAYS (MAX_DAYS + 1 - MIN_DAYS)`; the `break` on
  `end_idx >= len(data)` is a `takeWhile`, which is faithful because
  `start_idx + days` grows with `days`;
* `continue` on a `used_dates` overlap, and the threshold test
  `drawdown_rate <= -MIN_DRAWDOWN_RATE`, become the `filterMap` body. -/
def scanCandidates (cfg : Config) (data : List ℚ) (used_dates : Finset ℕ) :
    List DrawdownInterval :=
  (List.range data.length).flatMap fun start_idx =>
    (((List.range' cfg.MIN_DAYS (cfg.MAX_DAYS + 1 - cfg.MIN_DAYS)).takeWhile
        fun days => start_idx + days < data.length).filterMap fun days =>
      if (Finset.Icc start_idx (start_idx + days) ∩ used_dates).Nonempty then none
      else if (candidate data start_idx days).drawdown_rate ≤ -cfg.MIN_DRAWDOWN_RATE then
        some (candidate data start_idx days)
      else none)

/-- The comparison used by the sort at line 108:
`drawdown_intervals.sort(key=lambda x: x['drawdown_rate'])`. -/
def rateLe (a b : DrawdownInterval) : Prop :=
  a.drawdown_rate ≤ b.drawdown_rate

instance : DecidableRel rateLe := fun a b =>
  inferInstanceAs (Decidable (a.drawdown_rate ≤ b.drawdown_rate))

instance : IsTotal DrawdownInterval rateLe :=
  ⟨fun a b => le_total a.drawdown_rate b.drawdown_rate⟩

instance : IsTrans DrawdownInterval rateLe :=
  ⟨fun _ _ _ => le_trans⟩

/-- Line 108: Python's `list.sort` is a guaranteed-stable ascending sort by the
key; it is embedded as the stable sort `List.insertionSort` under `rateLe`. -/
def sortByDrawdownRate (l : List DrawdownInterval) : List DrawdownInterval :=
  l.insertionSort rateLe

/-- The selection loop (lines 111-126): walk the sorted candidates, stop once
`TOP_N` intervals are selected, skip a candidate whose date set intersects any
already-selected interval's date set, otherwise append it.  (The update of
`used_dates` at line 126 is not modelled: after the scan has finished that set
is never read again, so the update cannot influence the returned value.) -/
def selectLoop (cfg : Config) :
    List DrawdownInterval → List DrawdownInterval → List DrawdownInterval
  | [], selected => selected
  | interval :: rest, selected =>
    if cfg.TOP_N ≤ selected.length then selected
    else if selected.any fun s => (interval.dates ∩ s.dates).Nonempty then
      selectLoop cfg rest selected
    else selectLoop cfg rest (selected ++ [interval])

/-- `find_top_drawdown_intervals` (lines 70-128): scan with the (still empty)
`used_dates`, sort ascending by drawdown rate, then greedily select. -/
def find_top_drawdown_intervals (cfg : Config) (data : List ℚ) : List DrawdownInterval :=
  selectLoop cfg (sortByDrawdownRate (scanCandidates cfg data ∅)) []

/-- Modelled from the spec (§4.1 Drawdown Scanner, Behavior), for comparison
with the code's scan: "for every start_index in [0, n), and every window
length d in [min_days, max_days], let end_index = start_index + d; skip if
end_index ≥ n.  Compute drawdown_rate from start_price and end_price.  Emit a
candidate iff drawdown_rate ≤ −min_drawdown_pct."  No overlap constraint
appears at this stage. -/
def scanSpec (cfg : Config) (data : List ℚ) : List DrawdownInterval :=
  (List.range data.length).flatMap fun start_idx =>
    (List.range' cfg.MIN_DAYS (cfg.MAX_DAYS + 1 - cfg.MIN_DAYS)).filterMap fun days =>
      if data.length ≤ start_idx + days then none
      else if (candidate data start_idx days).drawdown_rate ≤ -cfg.MIN_DRAWDOWN_RATE then
        some (candidate data start_idx days)
      else none

/-! ### Helper lemmas about the scan -/

/-- On a `≤`-sorted list of naturals, `takeWhile` with a downward-closed
predicate keeps exactly the same elements as `filter` (this justifies reading
the inner loop's `break` as a filter). -/
lemma takeWhile_eq_filter_of_downward {p : ℕ → Bool}
    (hp : ∀ x y, x ≤ y → p y = true → p x = true) :
    ∀ {l : List ℕ}, l.Pairwise (· ≤ ·) → l.takeWhile p = l.filter p
  | [], _ => rfl
  | a :: t, h => by
    rcases List.pairwise_cons.mp h with ⟨ha, ht⟩
    by_cases hpa : p a = true
    · rw [List.takeWhile_cons_of_pos hpa, List.filter_cons_of_pos hpa,
        takeWhile_eq_filter_of_downward hp ht]
    · rw [List.takeWhile_cons_of_neg hpa, List.filter_cons_of_neg hpa]
      symm
      rw [List.filter_eq_nil_iff]
      intro b hb hpb
      exact hpa (hp a b (ha b hb) hpb)

/-- Membership in the inner loop's day range `range(MIN_DAYS, MAX_DAYS + 1)`. -/
lemma mem_daysRange {cfg : Config} {d : ℕ} :
    d ∈ List.range' cfg.MIN_DAYS (cfg.MAX_DAYS + 1 - cfg.MIN_DAYS) ↔
      cfg.MIN_DAYS ≤ d ∧ d ≤ cfg.MAX_DAYS := by
  rw [List.mem_range']
  constructor
  · rintro ⟨i, hi, rfl⟩
    omega
  · rintro ⟨h1, h2⟩
    exact ⟨d - cfg.MIN_DAYS, by omega, by omega⟩

/-- The inner loop's `break` on `end_idx >= len(data)` filters the day range:
the loop bound `start_idx + days` is monotone in `days`. -/
lemma scan_takeWhile_eq_filter (cfg : Config) (data : List ℚ) (s : ℕ) :
    ((List.range' cfg.MIN_DAYS (cfg.MAX_DAYS + 1 - cfg.MIN_DAYS)).takeWhile
        fun days => s + days < data.length) =
      (List.range' cfg.MIN_DAYS (cfg.MAX_DAYS + 1 - cfg.MIN_DAYS)).filter
        fun days => s + days < data.length := by
  refine takeWhile_eq_filter_of_downward ?_
    ((List.pairwise_lt_range' _ _ 1).imp fun h => le_of_lt h)
  intro x y hxy hy
  simp only [decide_eq_true_eq] at *
  omega

/-- What the body of the scan's inner loop emits. -/
lemma emit_eq_some {cfg : Config} {data : List ℚ} {used : Finset ℕ} {s d : ℕ}
    {c : DrawdownInterval}
    (h : (if (Finset.Icc s (s + d) ∩ used).Nonempty then none
          else if (candidate data s d).drawdown_rate ≤ -cfg.MIN_DRAWDOWN_RATE then
            some (candidate data s d)
          else none) = some c) :
    c = candidate data s d ∧ ¬(Finset.Icc s (s + d) ∩ used).Nonempty ∧
      (candidate data s d).drawdown_rate ≤ -cfg.MIN_DRAWDOWN_RATE := by
  by_cases h1 : (Finset.Icc s (s + d) ∩ used).Nonempty
  · rw [if_pos h1] at h
    cases h
  · rw [if_neg h1] at h
    by_cases h2 : (candidate data s d).drawdown_rate ≤ -cfg.MIN_DRAWDOWN_RATE
    · rw [if_pos h2] at h
      exact ⟨(Option.some_inj.mp h).symm, h1, h2⟩
    · rw [if_neg h2] at h
      cases h

/-- Characterisation of the candidates emitted by the scan phase. -/
lemma mem_scanCandidates {cfg : Config} {data : List ℚ} {used : Finset ℕ}
    {c : DrawdownInterval} :
    c ∈ scanCandidates cfg data used ↔
      ∃ s d, cfg.MIN_DAYS ≤ d ∧ d ≤ cfg.MAX_DAYS ∧ s + d < data.length ∧
        ¬(Finset.Icc s (s + d) ∩ used).Nonempty ∧
        (candidate data s d).drawdown_rate ≤ -cfg.MIN_DRAWDOWN_RATE ∧
        c = candidate data s d := by
  unfold scanCandidates
  simp only [List.mem_flatMap, List.mem_range, List.mem_filterMap,
    scan_takeWhile_eq_filter, List.mem_filter, mem_daysRange, decide_eq_true_eq]
  constructor
  · rintro ⟨s, _, d, ⟨⟨hd1, hd2⟩, hlen⟩, hemit⟩
    obtain ⟨hc, hnov, hth⟩ := emit_eq_some hemit
    exact ⟨s, d, hd1, hd2, hlen, hnov, hth, hc⟩
  · rintro ⟨s, d, hd1, hd2, hlen, hnov, hth, rfl⟩
    refine ⟨s, by omega, d, ⟨⟨hd1, hd2⟩, hlen⟩, ?_⟩
    rw [if_neg hnov, if_pos hth]

/-! ### Helper lemmas about the selection loop -/

/-- The selection loop only ever appends to `selected`: its result is
`selected` followed by a sublist (in order) of the remaining candidates. -/
lemma selectLoop_eq_append (cfg : Config) :
    ∀ (rest selected : List DrawdownInterval),
      ∃ s, selectLoop cfg rest selected = selected ++ s ∧ s.Sublist rest
  | [], selected => ⟨[], by simp [selectLoop]⟩
  | interval :: rest, selected => by
    by_cases h1 : cfg.TOP_N ≤ selected.length
    · exact ⟨[], by simp [selectLoop, h1], List.nil_sublist _⟩
    · by_cases h2 : (selected.any fun s => (interval.dates ∩ s.dates).Nonempty) = true
      · obtain ⟨s, hs, hsub⟩ := selectLoop_eq_append cfg rest selected
        exact ⟨s, by simp only [selectLoop, if_neg h1, if_pos h2, hs], hsub.cons _⟩
      · obtain ⟨s, hs, hsub⟩ := selectLoop_eq_append cfg rest (selected ++ [interval])
        refine ⟨interval :: s, ?_, hsub.cons₂ _⟩
        simp only [selectLoop, if_neg h1, if_neg h2, hs, List.append_assoc,
          List.singleton_append]

/-- The selection loop never grows the selection beyond `TOP_N` (unless it was
already longer when entered). -/
lemma selectLoop_length_le (cfg : Config) :
    ∀ (rest selected : List DrawdownInterval),
      (selectLoop cfg rest selected).length ≤ max cfg.TOP_N selected.length
  | [], selected => by simp [selectLoop]
  | interval :: rest, selected => by
    by_cases h1 : cfg.TOP_N ≤ selected.length
    · simp only [selectLoop, if_pos h1]
      exact le_max_right _ _
    · by_cases h2 : (selected.any fun s => (interval.dates ∩ s.dates).Nonempty) = true
      · simp only [selectLoop, if_neg h1, if_pos h2]
        exact selectLoop_length_le cfg rest selected
      · simp only [selectLoop, if_neg h1, if_neg h2]
        have h3 := selectLoop_length_le cfg rest (selected ++ [interval])
        simp only [List.length_append, List.length_singleton] at h3
        omega

/-- The selection loop preserves pairwise date-disjointness of the selection:
a candidate is only appended when its date set meets no selected date set. -/
lemma selectLoop_pairwise (cfg : Config) :
    ∀ (rest selected : List DrawdownInterval),
      selected.Pairwise (fun a b => a.dates ∩ b.dates = ∅) →
      (selectLoop cfg rest selected).Pairwise (fun a b => a.dates ∩ b.dates = ∅)
  | [], _, h => h
  | interval :: rest, selected, h => by
    by_cases h1 : cfg.TOP_N ≤ selected.length
    · simpa only [selectLoop, if_pos h1] using h
    · by_cases h2 : (selected.any fun s => (interval.dates ∩ s.dates).Nonempty) = true
      · simp only [selectLoop, if_neg h1, if_pos h2]
        exact selectLoop_pairwise cfg rest selected h
      · simp only [selectLoop, if_neg h1, if_neg h2]
        refine selectLoop_pairwise cfg rest _ ?_
        rw [List.pairwise_append]
        refine ⟨h, List.pairwise_singleton _ _, ?_⟩
        intro a ha b hb
        rw [List.mem_singleton] at hb
        rw [hb]
        have h2' : ¬(interval.dates ∩ a.dates).Nonempty := by
          intro hne
          exact h2 (List.any_eq_true.mpr ⟨a, ha, decide_eq_true hne⟩)
        rw [Finset.not_nonempty_iff_eq_empty, Finset.inter_comm] at h2'
        exact h2'

/-- Every returned interval was emitted by the scan. -/
lemma mem_find_top {cfg : Config} {data : List ℚ} {c : DrawdownInterval}
    (hc : c ∈ find_top_drawdown_intervals cfg data) :
    c ∈ scanCandidates cfg data ∅ := by
  obtain ⟨s, hs, hsub⟩ :=
    selectLoop_eq_append cfg (sortByDrawdownRate (scanCandidates cfg data ∅)) []
  rw [find_top_drawdown_intervals, hs, List.nil_append] at hc
  exact (List.perm_insertionSort rateLe _).mem_iff.mp (hsub.subset hc)

/-- The returned list is sorted ascending by drawdown rate. -/
lemma find_top_sorted (cfg : Config) (data : List ℚ) :
    (find_top_drawdown_intervals cfg data).Sorted rateLe := by
  obtain ⟨s, hs, hsub⟩ :=
    selectLoop_eq_append cfg (sortByDrawdownRate (scanCandidates cfg data ∅)) []
  rw [find_top_drawdown_intervals, hs, List.nil_append]
  exact List.Pairwise.sublist hsub (List.sorted_insertionSort rateLe _)

/-! ### Emission order and stability of the sort -/

/-- The scan's emission order: earlier start index first, and for equal start
index shorter window first (outer loop over `start_idx` ascending, inner loop
over `days` ascending). -/
def lexLt (a b : DrawdownInterval) : Prop :=
  a.start_date < b.start_date ∨ (a.start_date = b.start_date ∧ a.days < b.days)

lemma lexLt_asymm : ∀ a b, lexLt a b → ¬lexLt b a := by
  intro a b h1 h2
  rcases h1 with h1 | ⟨h1, h1'⟩ <;> rcases h2 with h2 | ⟨h2, h2'⟩ <;> omega

/-- Elements of one inner-loop pass all record the outer loop's start index,
and the inner day value. -/
lemma mem_scan_inner {cfg : Config} {data : List ℚ} {used : Finset ℕ} {s : ℕ}
    {c : DrawdownInterval}
    (hc : c ∈ (((List.range' cfg.MIN_DAYS (cfg.MAX_DAYS + 1 - cfg.MIN_DAYS)).takeWhile
        fun days => s + days < data.length).filterMap fun days =>
      if (Finset.Icc s (s + days) ∩ used).Nonempty then none
      else if (candidate data s days).drawdown_rate ≤ -cfg.MIN_DRAWDOWN_RATE then
        some (candidate data s days)
      else none)) :
    ∃ d, c = candidate data s d := by
  obtain ⟨d, _, hemit⟩ := List.mem_filterMap.mp hc
  exact ⟨d, (emit_eq_some hemit).1⟩

/-- The scan emits candidates in strictly increasing `(start_index, days)`
lexicographic order. -/
lemma scan_pairwise_lexLt (cfg : Config) (data : List ℚ) (used : Finset ℕ) :
    (scanCandidates cfg data used).Pairwise lexLt := by
  unfold scanCandidates
  rw [List.pairwise_flatMap]
  constructor
  · intro s _
    rw [List.pairwise_filterMap]
    have hdays : ((List.range' cfg.MIN_DAYS (cfg.MAX_DAYS + 1 - cfg.MIN_DAYS)).takeWhile
        fun days => s + days < data.length).Pairwise (· < ·) :=
      List.Pairwise.sublist (List.takeWhile_sublist _) (List.pairwise_lt_range' _ _ 1)
    refine hdays.imp fun {d d'} hdd => ?_
    intro b hb b' hb'
    obtain ⟨hbeq, _, _⟩ := emit_eq_some (Option.mem_def.mp hb)
    obtain ⟨hbeq', _, _⟩ := emit_eq_some (Option.mem_def.mp hb')
    subst hbeq
    subst hbeq'
    exact Or.inr ⟨rfl, hdd⟩
  · refine (List.pairwise_lt_range _).imp fun {s s'} hss => ?_
    intro x hx y hy
    obtain ⟨d, rfl⟩ := mem_scan_inner hx
    obtain ⟨d', rfl⟩ := mem_scan_inner hy
    exact Or.inl hss

/-- In a list that is pairwise ordered by an asymmetric relation, any two
members related by the relation occur in that order, as the sublist `[x, y]`. -/
lemma pair_sublist_of_pairwise {α : Type*} {R : α → α → Prop}
    (hasymm : ∀ a b, R a b → ¬R b a) :
    ∀ {l : List α} {x y : α}, l.Pairwise R → x ∈ l → y ∈ l → R x y →
      List.Sublist [x, y] l
  | [], x, _, _, hx, _, _ => absurd hx (List.not_mem_nil x)
  | a :: t, x, y, hp, hx, hy, hxy => by
    rcases List.pairwise_cons.mp hp with ⟨ha, ht⟩
    rcases List.mem_cons.mp hx with rfl | hx'
    · rcases List.mem_cons.mp hy with rfl | hy'
      · exact absurd hxy (hasymm _ _ hxy)
      · exact (List.singleton_sublist.mpr hy').cons₂ x
    · rcases List.mem_cons.mp hy with rfl | hy'
      · exact absurd hxy (hasymm _ _ (ha x hx'))
      · exact (pair_sublist_of_pairwise hasymm ht hx' hy' hxy).cons a

/-! ### Threshold monotonicity helpers -/

/-- `filterMap` with a pointwise-smaller partial function yields a sublist. -/
lemma filterMap_sublist_mono {α β : Type*} {f g : α → Option β}
    (h : ∀ a b, g a = some b → f a = some b) :
    ∀ l : List α, (l.filterMap g).Sublist (l.filterMap f)
  | [] => List.Sublist.refl _
  | a :: t => by
    rw [List.filterMap_cons, List.filterMap_cons]
    cases hga : g a with
    | none =>
      cases hfa : f a with
      | none => exact filterMap_sublist_mono h t
      | some b => exact (filterMap_sublist_mono h t).cons b
    | some b =>
      rw [h a b hga]
      exact (filterMap_sublist_mono h t).cons₂ b

/-- `flatMap` with pointwise sublists yields a sublist. -/
lemma flatMap_sublist_mono {α β : Type*} {f g : α → List β}
    (h : ∀ a, (g a).Sublist (f a)) :
    ∀ l : List α, (l.flatMap g).Sublist (l.flatMap f)
  | [] => List.Sublist.refl _
  | a :: t => by
    rw [List.flatMap_cons, List.flatMap_cons]
    exact (h a).append (flatMap_sublist_mono h t)

/-- Raising the drawdown threshold only removes scan candidates (as a sublist,
hence both as a set and in count). -/
lemma scan_sublist_of_le (cfg : Config) (data : List ℚ) (used : Finset ℕ)
    {t₁ t₂ : ℚ} (h : t₁ ≤ t₂) :
    (scanCandidates { cfg with MIN_DRAWDOWN_RATE := t₂ } data used).Sublist
      (scanCandidates { cfg with MIN_DRAWDOWN_RATE := t₁ } data used) := by
  unfold scanCandidates
  refine flatMap_sublist_mono (fun s => filterMap_sublist_mono (fun d c hc => ?_) _) _
  obtain ⟨hceq, hnov, hth⟩ := emit_eq_some hc
  rw [if_neg hnov, if_pos (le_trans hth (by simpa using h)), hceq]

/-- With the empty `used_dates` the scan has no overlap constraint: it equals
the spec's unconstrained scan. -/
lemma scan_empty_eq_scanSpec (cfg : Config) (data : List ℚ) :
    scanCandidates cfg data ∅ = scanSpec cfg data := by
  unfold scanCandidates scanSpec
  simp only [scan_takeWhile_eq_filter, List.filterMap_filter, Finset.inter_empty]
  congr 1
  funext s
  congr 1
  funext d
  by_cases h : s + d < data.length
  · simp [h, Nat.not_le.mpr h, Finset.not_nonempty_empty]
  · simp [h, Nat.le_of_not_lt h]

/-! ### Claim theorems -/

/-- C1: for a configuration with `MIN_DAYS ≤ MAX_DAYS`, the scan phase emits a
candidate for `(start_index, d)` iff `d ∈ [MIN_DAYS, MAX_DAYS]`,
`end_index = start_index + d < n`, and
`(end_price / start_price − 1) × 100 ≤ −MIN_DRAWDOWN_RATE`; moreover the
overlap test inside the scan loop filters nothing (the claimed-dates set is
empty throughout the scan), so the scan equals the spec's unconstrained
`scanSpec`. -/
theorem scan_phase_characterisation (cfg : Config) (data : List ℚ)
    (_hcfg : cfg.MIN_DAYS ≤ cfg.MAX_DAYS) :
    scanCandidates cfg data ∅ = scanSpec cfg data ∧
    ∀ s d, (∃ c ∈ scanCandidates cfg data ∅, c.start_date = s ∧ c.days = d) ↔
      (cfg.MIN_DAYS ≤ d ∧ d ≤ cfg.MAX_DAYS ∧ s + d < data.length ∧
        (data.getD (s + d) 0 / data.getD s 0 - 1) * 100 ≤ -cfg.MIN_DRAWDOWN_RATE) := by
  refine ⟨scan_empty_eq_scanSpec cfg data, fun s d => ?_⟩
  constructor
  · rintro ⟨c, hc, hs, hd⟩
    obtain ⟨s', d', h1, h2, h3, _, h5, rfl⟩ := mem_scanCandidates.mp hc
    simp only [candidate] at hs hd
    subst hs
    subst hd
    refine ⟨h1, h2, h3, ?_⟩
    simpa [candidate] using h5
  · rintro ⟨h1, h2, h3, h4⟩
    refine ⟨candidate data s d,
      mem_scanCandidates.mpr ⟨s, d, h1, h2, h3, by simp, ?_, rfl⟩, rfl, rfl⟩
    simpa [candidate] using h4

/-- C2: any two distinct intervals in the returned list have disjoint date
sets — both the stored `dates` field and the set of dates from `start_date`
through `end_date` inclusive. -/
theorem find_top_disjoint (cfg : Config) (data : List ℚ) :
    (find_top_drawdown_intervals cfg data).Pairwise fun a b =>
      a.dates ∩ b.dates = ∅ ∧
      Finset.Icc a.start_date a.end_date ∩ Finset.Icc b.start_date b.end_date = ∅ := by
  have h1 := selectLoop_pairwise cfg (sortByDrawdownRate (scanCandidates cfg data ∅)) []
    List.Pairwise.nil
  refine List.Pairwise.imp_of_mem ?_ h1
  intro a b ha hb hab
  obtain ⟨s, d, _, _, _, _, _, ha'⟩ := mem_scanCandidates.mp (mem_find_top ha)
  obtain ⟨s', d', _, _, _, _, _, hb'⟩ := mem_scanCandidates.mp (mem_find_top hb)
  refine ⟨hab, ?_⟩
  rw [ha', hb'] at hab ⊢
  simpa [candidate] using hab

/-- C3: the returned list is sorted ascending by `drawdown_rate` (most
negative, i.e. most severe, first): consecutive entries are ordered. -/
theorem find_top_sorted_by_rate (cfg : Config) (data : List ℚ) (i : ℕ)
    (h : i + 1 < (find_top_drawdown_intervals cfg data).length) :
    ((find_top_drawdown_intervals cfg data).get ⟨i, Nat.lt_of_succ_lt h⟩).drawdown_rate ≤
      ((find_top_drawdown_intervals cfg data).get ⟨i + 1, h⟩).drawdown_rate :=
  (find_top_sorted cfg data).rel_get_of_lt (Fin.mk_lt_mk.mpr (Nat.lt_succ_self i))

/-- C4: every returned interval satisfies the drawdown threshold and the
window-length bounds, with `days = end_index − start_index`. -/
theorem find_top_respects_thresholds (cfg : Config) (data : List ℚ)
    (c : DrawdownInterval) (hc : c ∈ find_top_drawdown_intervals cfg data) :
    c.drawdown_rate ≤ -cfg.MIN_DRAWDOWN_RATE ∧
      cfg.MIN_DAYS ≤ c.days ∧ c.days ≤ cfg.MAX_DAYS ∧
      c.days = c.end_date - c.start_date := by
  obtain ⟨s, d, h1, h2, _, _, h5, rfl⟩ := mem_scanCandidates.mp (mem_find_top hc)
  exact ⟨h5, h1, h2, by simp [candidate]⟩

/-- C5: the returned list has at most `TOP_N` members and no more members than
the scan emitted qualifying candidates. -/
theorem find_top_bounded (cfg : Config) (data : List ℚ) :
    (find_top_drawdown_intervals cfg data).length ≤ cfg.TOP_N ∧
      (find_top_drawdown_intervals cfg data).length ≤
        (scanCandidates cfg data ∅).length := by
  constructor
  · have h := selectLoop_length_le cfg (sortByDrawdownRate (scanCandidates cfg data ∅)) []
    simp only [List.length_nil] at h
    rw [find_top_drawdown_intervals]
    omega
  · obtain ⟨s, hs, hsub⟩ :=
      selectLoop_eq_append cfg (sortByDrawdownRate (scanCandidates cfg data ∅)) []
    rw [find_top_drawdown_intervals, hs, List.nil_append]
    have h := hsub.length_le
    rwa [sortByDrawdownRate, List.length_insertionSort] at h

/-- C7 (amended): the code performs no precondition validation.  With an
invalid configuration (`MIN_DAYS > MAX_DAYS` or `TOP_N = 0`) the core silently
returns the empty list instead of failing fast; nothing in
`find_top_drawdown_intervals` can signal an error. -/
theorem no_validation_silent_empty (cfg : Config) (data : List ℚ)
    (h : cfg.MAX_DAYS < cfg.MIN_DAYS ∨ cfg.TOP_N = 0) :
    find_top_drawdown_intervals cfg data = [] := by
  rcases h with h | h
  · have hrange : cfg.MAX_DAYS + 1 - cfg.MIN_DAYS = 0 := by omega
    have hscan : scanCandidates cfg data ∅ = [] := by
      unfold scanCandidates
      simp [hrange]
    rw [find_top_drawdown_intervals, hscan]
    rfl
  · rw [find_top_drawdown_intervals]
    cases sortByDrawdownRate (scanCandidates cfg data ∅) with
    | nil => rfl
    | cons a t => simp [selectLoop, h]

/-- C8: raising the drawdown threshold never adds scan candidates: with
`t₁ ≤ t₂` the candidates at threshold `t₂` are a subset of those at `t₁`, and
there are no more of them. -/
theorem scan_threshold_monotone (cfg : Config) (data : List ℚ) (t₁ t₂ : ℚ)
    (h : t₁ ≤ t₂) :
    (∀ c ∈ scanCandidates { cfg with MIN_DRAWDOWN_RATE := t₂ } data ∅,
        c ∈ scanCandidates { cfg with MIN_DRAWDOWN_RATE := t₁ } data ∅) ∧
      (scanCandidates { cfg with MIN_DRAWDOWN_RATE := t₂ } data ∅).length ≤
        (scanCandidates { cfg with MIN_DRAWDOWN_RATE := t₁ } data ∅).length :=
  ⟨fun _ hc => (scan_sublist_of_le cfg data ∅ h).subset hc,
    (scan_sublist_of_le cfg data ∅ h).length_le⟩

/-- C9: the algorithm is deterministic — a pure function of the series and the
configuration: equal inputs give the same candidate set (even the same list)
and the same selection output.  The embedding is deterministic by
construction; the Python code likewise consults no external state, and its
`set` values are used only for intersection emptiness tests, never iterated
into an order-sensitive result. -/
theorem find_top_deterministic (cfg₁ cfg₂ : Config) (data₁ data₂ : List ℚ)
    (hc : cfg₁ = cfg₂) (hd : data₁ = data₂) :
    (∀ c, c ∈ scanCandidates cfg₁ data₁ ∅ ↔ c ∈ scanCandidates cfg₂ data₂ ∅) ∧
      find_top_drawdown_intervals cfg₁ data₁ =
        find_top_drawdown_intervals cfg₂ data₂ := by
  subst hc
  subst hd
  exact ⟨fun _ => Iff.rfl, rfl⟩

/-- C10: the tie-break among equally-severe candidates is fixed by the code:
the sort is stable, so equal-rate candidates retain the scan's emission order,
which is ascending in `(start_index, days)`; a candidate with a smaller start
index (or equal start index and shorter window) appears before an
equally-severe one in the selector's input and hence gets selection
priority. -/
theorem sort_tie_break_stable (cfg : Config) (data : List ℚ)
    (x y : DrawdownInterval) (hx : x ∈ scanCandidates cfg data ∅)
    (hy : y ∈ scanCandidates cfg data ∅)
    (hrate : x.drawdown_rate = y.drawdown_rate) (hlex : lexLt x y) :
    List.Sublist [x, y] (sortByDrawdownRate (scanCandidates cfg data ∅)) :=
  List.pair_sublist_insertionSort (le_of_eq hrate)
    (pair_sublist_of_pairwise lexLt_asymm (scan_pairwise_lexLt cfg data ∅) hx hy hlex)

/-- C6: if the scan produces exactly two qualifying candidates with
intersecting date sets, one at −30% and one at −28%, then (for `TOP_N ≥ 1`)
the selection returns only the −30% interval; the −28% candidate is discarded
entirely, with no partial acceptance, even though it alone would qualify. -/
theorem overlap_discards_less_severe (cfg : Config) (data : List ℚ)
    (a b : DrawdownInterval)
    (hscan : scanCandidates cfg data ∅ = [a, b] ∨ scanCandidates cfg data ∅ = [b, a])
    (ha : a.drawdown_rate = -30) (hb : b.drawdown_rate = -28)
    (hov : (a.dates ∩ b.dates).Nonempty) (htop : 1 ≤ cfg.TOP_N) :
    find_top_drawdown_intervals cfg data = [a] := by
  have hb_a : (b.dates ∩ a.dates).Nonempty := by rwa [Finset.inter_comm] at hov
  have hsorted : sortByDrawdownRate (scanCandidates cfg data ∅) = [a, b] := by
    rcases hscan with h | h <;> rw [h] <;>
      norm_num [sortByDrawdownRate, rateLe, ha, hb]
  rw [find_top_drawdown_intervals, hsorted]
  have hc1 : ¬cfg.TOP_N ≤ 0 := by omega
  by_cases hc2 : cfg.TOP_N ≤ 1
  · simp [selectLoop, hc1, hc2]
  · simp [selectLoop, hc1, hc2, hb_a]

/-! ### Concrete runs used by the witnesses

`cfgA` is the script's global configuration except with one-day windows, so
that small series produce interesting outputs. -/

def cfgA : Config := ⟨10, 1, 1, 10⟩

def dataA : List ℚ := [100, 80, 100, 70]

/-- Concrete run: two disjoint qualifying windows, rates −20% and −30%; the
output is sorted most severe first. -/
lemma find_top_dataA :
    find_top_drawdown_intervals cfgA dataA =
      [candidate dataA 2 1, candidate dataA 0 1] := by
  norm_num [find_top_drawdown_intervals, scanCandidates, sortByDrawdownRate, cfgA, dataA,
    candidate, List.range_succ, List.range', rateLe, selectLoop, List.filterMap_cons]
  decide

/-- Witness for C1 at `cfgA`/`dataA` (the hypothesis `MIN_DAYS ≤ MAX_DAYS`
holds: `1 ≤ 1`). -/
theorem scan_phase_characterisation_witness :
    cfgA.MIN_DAYS ≤ cfgA.MAX_DAYS ∧
      (scanCandidates cfgA dataA ∅ = scanSpec cfgA dataA ∧
        ∀ s d, (∃ c ∈ scanCandidates cfgA dataA ∅, c.start_date = s ∧ c.days = d) ↔
          (cfgA.MIN_DAYS ≤ d ∧ d ≤ cfgA.MAX_DAYS ∧ s + d < dataA.length ∧
            (dataA.getD (s + d) 0 / dataA.getD s 0 - 1) * 100 ≤
              -cfgA.MIN_DRAWDOWN_RATE)) :=
  ⟨by decide, scan_phase_characterisation cfgA dataA (by decide)⟩

/-- Witness for C3: in the concrete run the two entries are ordered
(−30 ≤ −20). -/
theorem find_top_sorted_by_rate_witness :
    ∃ h : 0 + 1 < (find_top_drawdown_intervals cfgA dataA).length,
      ((find_top_drawdown_intervals cfgA dataA).get
          ⟨0, Nat.lt_of_succ_lt h⟩).drawdown_rate ≤
        ((find_top_drawdown_intervals cfgA dataA).get ⟨0 + 1, h⟩).drawdown_rate := by
  have hlen : 0 + 1 < (find_top_drawdown_intervals cfgA dataA).length := by
    rw [find_top_dataA]
    decide
  exact ⟨hlen, find_top_sorted_by_rate cfgA dataA 0 hlen⟩

/-- Witness for C4 at a member of the concrete run's output. -/
theorem find_top_respects_thresholds_witness :
    candidate dataA 2 1 ∈ find_top_drawdown_intervals cfgA dataA ∧
      ((candidate dataA 2 1).drawdown_rate ≤ -cfgA.MIN_DRAWDOWN_RATE ∧
        cfgA.MIN_DAYS ≤ (candidate dataA 2 1).days ∧
        (candidate dataA 2 1).days ≤ cfgA.MAX_DAYS ∧
        (candidate dataA 2 1).days =
          (candidate dataA 2 1).end_date - (candidate dataA 2 1).start_date) := by
  have hmem : candidate dataA 2 1 ∈ find_top_drawdown_intervals cfgA dataA := by
    rw [find_top_dataA]
    exact List.mem_cons_self _ _
  exact ⟨hmem, find_top_respects_thresholds cfgA dataA _ hmem⟩

/-! ### C6 witness: two overlapping qualifying windows at −30% and −28% -/

def cfgB : Config := ⟨10, 2, 2, 10⟩

def dataB : List ℚ := [100, 100, 70, 72, 70]

/-- The scan on `dataB` emits exactly the −30% window (indices 0–2) and the
overlapping −28% window (indices 1–3). -/
lemma scan_dataB :
    scanCandidates cfgB dataB ∅ = [candidate dataB 0 2, candidate dataB 1 2] := by
  norm_num [scanCandidates, cfgB, dataB, candidate, List.range_succ, List.range',
    List.filterMap_cons]

/-- Witness for C6 at `cfgB`/`dataB`: only the −30% interval is returned. -/
theorem overlap_discards_less_severe_witness :
    ((scanCandidates cfgB dataB ∅ = [candidate dataB 0 2, candidate dataB 1 2] ∨
        scanCandidates cfgB dataB ∅ = [candidate dataB 1 2, candidate dataB 0 2]) ∧
      (candidate dataB 0 2).drawdown_rate = -30 ∧
      (candidate dataB 1 2).drawdown_rate = -28 ∧
      ((candidate dataB 0 2).dates ∩ (candidate dataB 1 2).dates).Nonempty ∧
      1 ≤ cfgB.TOP_N) ∧
      find_top_drawdown_intervals cfgB dataB = [candidate dataB 0 2] := by
  have hs : scanCandidates cfgB dataB ∅ = [candidate dataB 0 2, candidate dataB 1 2] ∨
      scanCandidates cfgB dataB ∅ = [candidate dataB 1 2, candidate dataB 0 2] :=
    Or.inl scan_dataB
  have h30 : (candidate dataB 0 2).drawdown_rate = -30 := by norm_num [candidate, dataB]
  have h28 : (candidate dataB 1 2).drawdown_rate = -28 := by norm_num [candidate, dataB]
  have hov : ((candidate dataB 0 2).dates ∩ (candidate dataB 1 2).dates).Nonempty := by
    decide
  have htop : 1 ≤ cfgB.TOP_N := by decide
  exact ⟨⟨hs, h30, h28, hov, htop⟩,
    overlap_discards_less_severe cfgB dataB _ _ hs h30 h28 hov htop⟩

/-! ### C7: invalid configurations and invalid prices -/

def cfgBad : Config := ⟨10, 5, 3, 0⟩

def cfgNeg : Config := ⟨10, 1, 1, 1⟩

def dataNeg : List ℚ := [100, -50]

/-- C7 counterexample: the core does not fail fast on precondition violations.
`dataNeg` contains the non-positive price −50, yet `find_top_drawdown_intervals`
silently returns a (nonsensical) interval whose end price is negative and whose
"drawdown" is −150%; and under `cfgBad` (`MIN_DAYS = 5 > 3 = MAX_DAYS`,
`TOP_N = 0`) it silently returns the empty list.  No error is signalled
anywhere: the function is total and never raises (the script contains no
validation, so the embedding has no error channel to begin with). -/
theorem no_failfast_counterexample :
    ((-50 : ℚ) ∈ dataNeg ∧ (-50 : ℚ) ≤ 0 ∧
      cfgBad.MAX_DAYS < cfgBad.MIN_DAYS ∧ cfgBad.TOP_N = 0) ∧
      find_top_drawdown_intervals cfgNeg dataNeg = [candidate dataNeg 0 1] ∧
      find_top_drawdown_intervals cfgBad dataNeg = [] := by
  refine ⟨⟨by norm_num [dataNeg], by norm_num, by decide, by decide⟩, ?_, ?_⟩
  · norm_num [find_top_drawdown_intervals, scanCandidates, sortByDrawdownRate, cfgNeg,
      dataNeg, candidate, List.range_succ, List.range', rateLe, selectLoop,
      List.filterMap_cons]
  · norm_num [find_top_drawdown_intervals, scanCandidates, sortByDrawdownRate, cfgBad,
      dataNeg, List.range_succ, List.range', selectLoop, List.filterMap_cons]

/-- Witness for the amended C7 at `cfgBad`. -/
theorem no_validation_silent_empty_witness :
    (cfgBad.MAX_DAYS < cfgBad.MIN_DAYS ∨ cfgBad.TOP_N = 0) ∧
      find_top_drawdown_intervals cfgBad dataA = [] :=
  ⟨by decide, no_validation_silent_empty cfgBad dataA (by decide)⟩

/-- Witness for C8 with thresholds 10 ≤ 25 on the concrete run. -/
theorem scan_threshold_monotone_witness :
    (10 : ℚ) ≤ 25 ∧
      ((∀ c ∈ scanCandidates { cfgA with MIN_DRAWDOWN_RATE := 25 } dataA ∅,
          c ∈ scanCandidates { cfgA with MIN_DRAWDOWN_RATE := 10 } dataA ∅) ∧
        (scanCandidates { cfgA with MIN_DRAWDOWN_RATE := 25 } dataA ∅).length ≤
          (scanCandidates { cfgA with MIN_DRAWDOWN_RATE := 10 } dataA ∅).length) :=
  ⟨by norm_num, scan_threshold_monotone cfgA dataA 10 25 (by norm_num)⟩

/-- Witness for C9 at the concrete run. -/
theorem find_top_deterministic_witness :
    (∀ c, c ∈ scanCandidates cfgA dataA ∅ ↔ c ∈ scanCandidates cfgA dataA ∅) ∧
      find_top_drawdown_intervals cfgA dataA = find_top_drawdown_intervals cfgA dataA :=
  find_top_deterministic cfgA cfgA dataA dataA rfl rfl

/-! ### C10 witness: an exact tie in drawdown rate -/

def dataC : List ℚ := [100, 80, 100, 80]

/-- The scan on `dataC` emits two candidates with the same −20% rate, first
the one starting at index 0, then the one starting at index 2. -/
lemma scan_dataC :
    scanCandidates cfgA dataC ∅ = [candidate dataC 0 1, candidate dataC 2 1] := by
  norm_num [scanCandidates, cfgA, dataC, candidate, List.range_succ, List.range',
    List.filterMap_cons]

/-- Witness for C10: the tied −20% candidates keep the scan order (smaller
start index first) through the sort. -/
theorem sort_tie_break_stable_witness :
    (candidate dataC 0 1 ∈ scanCandidates cfgA dataC ∅ ∧
      candidate dataC 2 1 ∈ scanCandidates cfgA dataC ∅ ∧
      (candidate dataC 0 1).drawdown_rate = (candidate dataC 2 1).drawdown_rate ∧
      lexLt (candidate dataC 0 1) (candidate dataC 2 1)) ∧
      List.Sublist [candidate dataC 0 1, candidate dataC 2 1]
        (sortByDrawdownRate (scanCandidates cfgA dataC ∅)) := by
  have hx : candidate dataC 0 1 ∈ scanCandidates cfgA dataC ∅ := by
    rw [scan_dataC]
    exact List.mem_cons_self _ _
  have hy : candidate dataC 2 1 ∈ scanCandidates cfgA dataC ∅ := by
    rw [scan_dataC]
    simp
  have hr : (candidate dataC 0 1).drawdown_rate = (candidate dataC 2 1).drawdown_rate := by
    norm_num [candidate, dataC]
  have hl : lexLt (candidate dataC 0 1) (candidate dataC 2 1) := Or.inl (by decide)
  exact ⟨⟨hx, hy, hr, hl⟩, sort_tie_break_stable cfgA dataC _ _ hx hy hr hl⟩

end MarketResearch
